import Mathlib

/-!
Shallow embedding of the chroma-subsampling core `Conv444to422Generic.cpp`
and the transfer function `TransferFunctionST240.cpp` from the HDRTools
dependency of this repository.  C `double` arithmetic in the filter paths is
modelled by exact rational arithmetic (`ℚ`); the transfer-function math uses
real numbers (`ℝ`) because of the fractional powers.  Pixel buffers are
modelled as total functions from `ℤ` (array index) to the sample type.
-/

namespace HDR

/-- Modelled from the spec: the integer clamp helper `iClip` from the external
`Global.H` header — clamps `x` into `[lo, hi]`. -/
def iClip (x lo hi : ℤ) : ℤ :=
  if x < lo then lo else if x > hi then hi else x

/-- Modelled from the spec: the floating clamp helper `fClip` from the external
`Global.H` header — clamps `x` into `[lo, hi]`. -/
def fClip (x lo hi : ℚ) : ℚ :=
  if x < lo then lo else if x > hi then hi else x

/-- The slice of the external `ScaleFilter` object that
`Conv444to422Generic.cpp` reads: tap geometry, floating coefficients,
integer coefficients, and the clip flag. -/
structure ScaleFilter where
  m_numberOfTaps : ℕ
  m_positionOffset : ℤ
  m_floatFilter : ℕ → ℚ
  m_floatOffset : ℚ
  m_floatScale : ℚ
  m_i32Filter : ℕ → ℤ
  m_i32Offset : ℤ
  m_i32Shift : ℕ
  m_clip : Bool

/-- The fields of `Conv444to422Generic` used by the filtering routines:
the overshoot-policy selector and the primary/fallback filter tables. -/
structure Conv where
  m_useMinMax : ℤ
  m_horFilter : ScaleFilter
  m_horFilterM : ScaleFilter

/-- Source index read by tap `i`: `iClip(pos_x + i - m_positionOffset, 0, width)`. -/
def tapIndex (filter : ScaleFilter) (pos_x width : ℤ) (i : ℕ) : ℤ :=
  iClip (pos_x + (i : ℤ) - filter.m_positionOffset) 0 width

/-- The input sample read by tap `i` of `filter` at output position `pos_x`. -/
def tapSample (inp : ℤ → ℚ) (filter : ScaleFilter) (pos_x width : ℤ) (i : ℕ) : ℚ :=
  inp (tapIndex filter pos_x width i)

/-- The running accumulation `value += ...` of the filter loops, in loop order. -/
def convAcc (g : ℕ → ℚ) : ℕ → ℚ
  | 0 => 0
  | n + 1 => convAcc g n + g n

/-- The `1e20` sentinel that initializes `dMin` in the source. -/
def hugeVal : ℚ := 10 ^ 20

/-- The running minimum `dMin` of the tap-sample loops (initialized to `1e20`). -/
def minAcc (g : ℕ → ℚ) : ℕ → ℚ
  | 0 => hugeVal
  | n + 1 => min (minAcc g n) (g n)

/-- The running maximum `dMax` of the tap-sample loops (initialized to `-1e20`). -/
def maxAcc (g : ℕ → ℚ) : ℕ → ℚ
  | 0 => -hugeVal
  | n + 1 => max (maxAcc g n) (g n)

/-- `(Σ taps·sample + m_floatOffset) * m_floatScale`: the scaled convolution
value computed by every floating filter routine. -/
def scaledValue (inp : ℤ → ℚ) (filter : ScaleFilter) (pos_x width : ℤ) : ℚ :=
  (convAcc (fun i => filter.m_floatFilter i * tapSample inp filter pos_x width i)
      filter.m_numberOfTaps + filter.m_floatOffset) * filter.m_floatScale

/-- `dMin` over the tap window of `filter` (loop result, sentinel `1e20`). -/
def windowMin (inp : ℤ → ℚ) (filter : ScaleFilter) (pos_x width : ℤ) : ℚ :=
  minAcc (tapSample inp filter pos_x width) filter.m_numberOfTaps

/-- `dMax` over the tap window of `filter` (loop result, sentinel `-1e20`). -/
def windowMax (inp : ℤ → ℚ) (filter : ScaleFilter) (pos_x width : ℤ) : ℚ :=
  maxAcc (tapSample inp filter pos_x width) filter.m_numberOfTaps

/-- Overshoot resolution of `filterHorizontalMinMax` (`RecomputeIfOutside`):
local min/max are taken over the primary filter's own tap samples; when the
primary scaled value falls outside, the whole output is recomputed from the
fallback table `m_horFilterM`. -/
def resolveMinMax1 (conv : Conv) (inp : ℤ → ℚ) (filter : ScaleFilter) (pos_x width : ℤ) : ℚ :=
  if windowMax inp filter pos_x width < scaledValue inp filter pos_x width ∨
      scaledValue inp filter pos_x width < windowMin inp filter pos_x width then
    scaledValue inp conv.m_horFilterM pos_x width
  else
    scaledValue inp filter pos_x width

/-- Overshoot resolution of `filterHorizontalMinMax2` (`BlendIfOutside`):
local min/max are taken over the fallback filter's tap samples; when the
primary scaled value falls outside, the fallback's scaled accumulation is
used instead. -/
def resolveMinMax2 (conv : Conv) (inp : ℤ → ℚ) (filter : ScaleFilter) (pos_x width : ℤ) : ℚ :=
  if windowMax inp conv.m_horFilterM pos_x width < scaledValue inp filter pos_x width ∨
      scaledValue inp filter pos_x width < windowMin inp conv.m_horFilterM pos_x width then
    scaledValue inp conv.m_horFilterM pos_x width
  else
    scaledValue inp filter pos_x width

/-- Overshoot resolution of `filterHorizontalMinMax3` (`ClampToLocalRange`):
the primary scaled value is saturated into the min/max of the fallback
filter's tap samples (two sequential `if`s, as in the source). -/
def resolveMinMax3 (conv : Conv) (inp : ℤ → ℚ) (filter : ScaleFilter) (pos_x width : ℤ) : ℚ :=
  let dScaled := scaledValue inp filter pos_x width
  let dMin := windowMin inp conv.m_horFilterM pos_x width
  let dMax := windowMax inp conv.m_horFilterM pos_x width
  let v1 := if dMax < dScaled then dMax else dScaled
  if v1 < dMin then dMin else v1

/-- `Conv444to422Generic::filterHorizontalMinMax` (float path). -/
def filterHorizontalMinMax (conv : Conv) (inp : ℤ → ℚ) (filter : ScaleFilter)
    (pos_x width : ℤ) (minValue maxValue : ℚ) : ℚ :=
  if filter.m_clip then fClip (resolveMinMax1 conv inp filter pos_x width) minValue maxValue
  else resolveMinMax1 conv inp filter pos_x width

/-- `Conv444to422Generic::filterHorizontalMinMax2` (float path). -/
def filterHorizontalMinMax2 (conv : Conv) (inp : ℤ → ℚ) (filter : ScaleFilter)
    (pos_x width : ℤ) (minValue maxValue : ℚ) : ℚ :=
  if filter.m_clip then fClip (resolveMinMax2 conv inp filter pos_x width) minValue maxValue
  else resolveMinMax2 conv inp filter pos_x width

/-- `Conv444to422Generic::filterHorizontalMinMax3` (float path). -/
def filterHorizontalMinMax3 (conv : Conv) (inp : ℤ → ℚ) (filter : ScaleFilter)
    (pos_x width : ℤ) (minValue maxValue : ℚ) : ℚ :=
  if filter.m_clip then fClip (resolveMinMax3 conv inp filter pos_x width) minValue maxValue
  else resolveMinMax3 conv inp filter pos_x width

/-- `Conv444to422Generic::filterHorizontal` (float overload).  Note that when
`m_clip` is set the source clamps to the literal constants `-0.5` and `0.5`,
not to the `minValue`/`maxValue` arguments. -/
def filterHorizontal (inp : ℤ → ℚ) (filter : ScaleFilter)
    (pos_x width : ℤ) (minValue maxValue : ℚ) : ℚ :=
  if filter.m_clip then fClip (scaledValue inp filter pos_x width) (-(1/2)) (1/2)
  else scaledValue inp filter pos_x width

/-- Integer accumulation `value += m_i32Filter[i] * inp[...]` of the fixed-point
`filterHorizontal` overloads. -/
def convAccI (g : ℕ → ℤ) : ℕ → ℤ
  | 0 => 0
  | n + 1 => convAccI g n + g n

/-- The fixed-point `Conv444to422Generic::filterHorizontal` overloads (uint16 /
int32 / imgpel are identical up to the sample type, modelled once over `ℤ`);
the arithmetic right shift `>> m_i32Shift` is floor division by `2 ^ m_i32Shift`. -/
def filterHorizontalI (inp : ℤ → ℤ) (filter : ScaleFilter)
    (pos_x width : ℤ) (minValue maxValue : ℤ) : ℤ :=
  let value := convAccI
    (fun i => filter.m_i32Filter i * inp (tapIndex filter pos_x width i))
    filter.m_numberOfTaps
  if filter.m_clip then
    iClip (Int.fdiv (value + filter.m_i32Offset) (2 ^ filter.m_i32Shift)) minValue maxValue
  else Int.fdiv (value + filter.m_i32Offset) (2 ^ filter.m_i32Shift)

/-- The row of a plane buffer starting at flat index `base` (`&inp[j * inp_width]`). -/
def rowOf (inp : ℤ → ℚ) (base : ℤ) : ℤ → ℚ := fun k => inp (base + k)

/-- Same for integer-valued planes. -/
def rowOfI (inp : ℤ → ℤ) (base : ℤ) : ℤ → ℤ := fun k => inp (base + k)

/-- The per-sample dispatch of the float `Conv444to422Generic::filter`:
`m_useMinMax` 1, 2 and 3 select the three min/max routines, anything else the
plain `filterHorizontal`. -/
def filterSampleF (conv : Conv) (row : ℤ → ℚ) (pos_x width : ℤ) (minValue maxValue : ℚ) : ℚ :=
  if conv.m_useMinMax = 1 then filterHorizontalMinMax conv row conv.m_horFilter pos_x width minValue maxValue
  else if conv.m_useMinMax = 2 then filterHorizontalMinMax2 conv row conv.m_horFilter pos_x width minValue maxValue
  else if conv.m_useMinMax = 3 then filterHorizontalMinMax3 conv row conv.m_horFilter pos_x width minValue maxValue
  else filterHorizontal row conv.m_horFilter pos_x width minValue maxValue

/-- The float `Conv444to422Generic::filter` over a plane: for `0 ≤ j < height`
and `0 ≤ i < width`, position `j * width + i` of the output is the horizontal
filter evaluated on row `j` of the input (of width `2 * width`) at position
`2 * i` with last valid column `2 * width - 1`; all other positions keep the
previous output content. -/
def filterPlaneF (conv : Conv) (outBuf inpBuf : ℤ → ℚ) (width height : ℤ)
    (minValue maxValue : ℚ) : ℤ → ℚ :=
  fun idx =>
    if 0 < width ∧ 0 ≤ idx ∧ idx < width * height then
      filterSampleF conv (rowOf inpBuf ((idx / width) * (2 * width)))
        (2 * (idx % width)) (2 * width - 1) minValue maxValue
    else outBuf idx

/-- The fixed-point `Conv444to422Generic::filter` overloads over a plane
(no min/max dispatch in the source). -/
def filterPlaneI (conv : Conv) (outBuf inpBuf : ℤ → ℤ) (width height : ℤ)
    (minValue maxValue : ℤ) : ℤ → ℤ :=
  fun idx =>
    if 0 < width ∧ 0 ≤ idx ∧ idx < width * height then
      filterHorizontalI (rowOfI inpBuf ((idx / width) * (2 * width))) conv.m_horFilter
        (2 * (idx % width)) (2 * width - 1) minValue maxValue
    else outBuf idx

/-- Component indices `Y_COMP = 0`, `U_COMP = 1`, `V_COMP = 2`. -/
def Y_COMP : Fin 3 := 0

/-- `U_COMP = 1`. -/
def U_COMP : Fin 3 := 1

/-- `V_COMP = 2`. -/
def V_COMP : Fin 3 := 2

/-- The slice of the external `Frame` collaborator that
`Conv444to422Generic::process` reads and writes: representation tag,
per-component geometry, metadata, and the three buffer families.  Buffers are
total functions from flat index to sample value. -/
structure Frame where
  m_isFloat : Bool
  m_bitDepth : ℤ
  m_compSize : Fin 3 → ℤ
  m_width : Fin 3 → ℤ
  m_height : Fin 3 → ℤ
  m_frameNo : ℤ
  m_isAvailable : Bool
  m_minPelValue : Fin 3 → ℤ
  m_midPelValue : Fin 3 → ℤ
  m_maxPelValue : Fin 3 → ℤ
  m_floatComp : Fin 3 → ℤ → ℚ
  m_comp : Fin 3 → ℤ → ℤ
  m_ui16Comp : Fin 3 → ℤ → ℤ

/-- `memcpy(dst, src, n * elementSize)`: indices `0 ≤ k < n` come from the
source, the rest keep the destination's content. -/
def memcpyPlane (dst src : ℤ → ℚ) (n : ℤ) : ℤ → ℚ :=
  fun k => if 0 ≤ k ∧ k < n then src k else dst k

/-- `memcpy` for integer-valued planes. -/
def memcpyPlaneI (dst src : ℤ → ℤ) (n : ℤ) : ℤ → ℤ :=
  fun k => if 0 ≤ k ∧ k < n then src k else dst k

/-- The two fatal paths of `process`: `fprintf(stderr, ...)` followed by
`exit(EXIT_FAILURE)`.  The two constructors record which of the two distinct
diagnostics was printed before the process terminated. -/
inductive ProcExit
  | dataTypeMismatch
  | sizeMismatch
deriving DecidableEq

/-- The float branch of `process` after the metadata copy: luma is `memcpy`ed
over `m_compSize[Y_COMP]` samples, the two chroma planes are filtered with
the output's per-plane min/max pel values as clip range. -/
def updateFloat (conv : Conv) (o inp : Frame) : Frame :=
  let newComp : Fin 3 → ℤ → ℚ := fun c =>
    if c = Y_COMP then
      memcpyPlane (o.m_floatComp Y_COMP) (inp.m_floatComp Y_COMP) (o.m_compSize Y_COMP)
    else
      filterPlaneF conv (o.m_floatComp c) (inp.m_floatComp c) (o.m_width c) (o.m_height c)
        ((o.m_minPelValue c : ℚ)) ((o.m_maxPelValue c : ℚ))
  { o with m_floatComp := newComp }

/-- The 8-bit branch of `process` (buffers `m_comp`). -/
def updateFixed8 (conv : Conv) (o inp : Frame) : Frame :=
  let newComp : Fin 3 → ℤ → ℤ := fun c =>
    if c = Y_COMP then
      memcpyPlaneI (o.m_comp Y_COMP) (inp.m_comp Y_COMP) (o.m_compSize Y_COMP)
    else
      filterPlaneI conv (o.m_comp c) (inp.m_comp c) (o.m_width c) (o.m_height c)
        (o.m_minPelValue c) (o.m_maxPelValue c)
  { o with m_comp := newComp }

/-- The 16-bit branch of `process` (buffers `m_ui16Comp`). -/
def updateFixed16 (conv : Conv) (o inp : Frame) : Frame :=
  let newComp : Fin 3 → ℤ → ℤ := fun c =>
    if c = Y_COMP then
      memcpyPlaneI (o.m_ui16Comp Y_COMP) (inp.m_ui16Comp Y_COMP) (o.m_compSize Y_COMP)
    else
      filterPlaneI conv (o.m_ui16Comp c) (inp.m_ui16Comp c) (o.m_width c) (o.m_height c)
        (o.m_minPelValue c) (o.m_maxPelValue c)
  { o with m_ui16Comp := newComp }

/-- `Conv444to422Generic::process`.  The first component of the result is the
output frame as left in memory (unchanged on the fatal paths, since both
checks precede every write); the second component is `some e` exactly when
the source reaches `exit(EXIT_FAILURE)`, with `e` recording which diagnostic
was printed. -/
def process (conv : Conv) (out inp : Frame) : Frame × Option ProcExit :=
  if out.m_isFloat ≠ inp.m_isFloat ∨ (inp.m_isFloat = false ∧ out.m_bitDepth ≠ inp.m_bitDepth) then
    (out, some ProcExit.dataTypeMismatch)
  else if out.m_compSize Y_COMP ≠ inp.m_compSize Y_COMP then
    (out, some ProcExit.sizeMismatch)
  else
    let out1 : Frame :=
      { out with
        m_frameNo := inp.m_frameNo
        m_isAvailable := true
        m_minPelValue := inp.m_minPelValue
        m_midPelValue := inp.m_midPelValue
        m_maxPelValue := inp.m_maxPelValue }
    if out1.m_isFloat then (updateFloat conv out1 inp, none)
    else if out1.m_bitDepth = 8 then (updateFixed8 conv out1 inp, none)
    else (updateFixed16 conv out1 inp, none)

/-- Modelled from the spec: an input row "extended by replicating its first and
last column", for a row of `W` valid columns `0 .. W - 1` (the spec's
border-replication policy, written from its words, to be compared with the
source's per-tap `iClip`). -/
def replicateExtendRow (row : ℤ → ℚ) (W : ℤ) : ℤ → ℚ :=
  fun k => if k < 0 then row 0 else if k > W - 1 then row (W - 1) else row k

/-- The tap sample read from an already-extended row with no index clamping. -/
def tapSampleExt (ext : ℤ → ℚ) (filter : ScaleFilter) (pos_x : ℤ) (i : ℕ) : ℚ :=
  ext (pos_x + (i : ℤ) - filter.m_positionOffset)

/-- The scaled convolution over an already-extended row (no index clamping). -/
def scaledValueExt (ext : ℤ → ℚ) (filter : ScaleFilter) (pos_x : ℤ) : ℚ :=
  (convAcc (fun i => filter.m_floatFilter i * tapSampleExt ext filter pos_x i)
      filter.m_numberOfTaps + filter.m_floatOffset) * filter.m_floatScale

/-- `filterHorizontal` applied to an already-extended row: identical final
clip step, but the taps read the extended row directly. -/
def filterHorizontalExt (ext : ℤ → ℚ) (filter : ScaleFilter) (pos_x : ℤ) : ℚ :=
  if filter.m_clip then fClip (scaledValueExt ext filter pos_x) (-(1/2)) (1/2)
  else scaledValueExt ext filter pos_x

/-- The six progressive chroma-site locations of the external enumeration,
plus the undefined value covered by the `default` case of the constructor's
switch. -/
inductive ChromaLocation
  | CL_UNDEFINED
  | CL_ZERO
  | CL_ONE
  | CL_TWO
  | CL_THREE
  | CL_FOUR
  | CL_FIVE
deriving DecidableEq

/-- Modelled from the spec: the external filtering-method enumeration's fixed
member `DF_F0` used for the fallback table; only its identity matters here. -/
def DF_F0 : ℤ := 0

/-- The horizontal phase derived by the constructor's switch on
`chromaLocationType[FP_FRAME]`. -/
def hPhaseOf : ChromaLocation → ℤ
  | ChromaLocation.CL_FIVE => 1
  | ChromaLocation.CL_FOUR => 0
  | ChromaLocation.CL_THREE => 1
  | ChromaLocation.CL_TWO => 0
  | ChromaLocation.CL_ONE => 1
  | ChromaLocation.CL_ZERO => 0
  | ChromaLocation.CL_UNDEFINED => 0

/-- Modelled from the spec: the external `ScaleFilter` generator produces an
immutable tap table from a filtering-method identifier and a phase; since its
internals are outside this core, a generated table is represented by that
construction key. -/
structure ScaleFilterKey where
  method : ℤ
  phase : ℤ
deriving DecidableEq

/-- The state established by the `Conv444to422Generic` constructor: the
policy selector, the primary table's construction key, and the optional
fallback table's construction key (`NULL` modelled as `none`). -/
structure ConvInit where
  m_useMinMax : ℤ
  m_horFilter : ScaleFilterKey
  m_horFilterM : Option ScaleFilterKey

/-- The `Conv444to422Generic` constructor: the primary table is built from the
caller's `method` and the derived phase; the fallback table is built only when
`useMinMax != 0`, always from `DF_F0` and the same phase. -/
def mkConv444to422Generic (method : ℤ) (chromaLocFrame : ChromaLocation) (useMinMax : ℤ) :
    ConvInit :=
  let hPhase := hPhaseOf chromaLocFrame
  { m_useMinMax := useMinMax
    m_horFilter := ⟨method, hPhase⟩
    m_horFilterM := if useMinMax ≠ 0 then some ⟨DF_F0, hPhase⟩ else none }

end HDR

namespace ST240

/-- `m_inverseGamma = 0.45` set by the `TransferFunctionST240` constructor. -/
def m_inverseGamma : ℝ := 0.45

/-- `m_gamma = 1.0 / m_inverseGamma`. -/
noncomputable def m_gamma : ℝ := 1 / m_inverseGamma

/-- `m_alpha = 0.1115`. -/
def m_alpha : ℝ := 0.1115

/-- `m_beta = 0.0228`. -/
def m_beta : ℝ := 0.0228

/-- `TransferFunctionST240::inverse`. -/
noncomputable def inverse (value : ℝ) : ℝ :=
  if value ≤ m_beta then 4 * value
  else (1 + m_alpha) * value ^ m_inverseGamma - m_alpha

/-- `m_invBeta = inverse(m_beta)` computed by the constructor. -/
noncomputable def m_invBeta : ℝ := inverse m_beta

/-- `TransferFunctionST240::forward` (`dMax` is `max`). -/
noncomputable def forward (value : ℝ) : ℝ :=
  if value ≤ m_invBeta then value / 4
  else (max ((value + m_alpha) / (1 + m_alpha)) 0) ^ m_gamma

end ST240

namespace HDR

theorem minAcc_le (g : ℕ → ℚ) : ∀ {n i : ℕ}, i < n → minAcc g n ≤ g i := by
  intro n
  induction n with
  | zero => intro i h; exact absurd h (Nat.not_lt_zero i)
  | succ n ih =>
    intro i h
    rcases Nat.lt_succ_iff_lt_or_eq.mp h with h' | h'
    · exact le_trans (min_le_left _ _) (ih h')
    · subst h'; exact min_le_right _ _

theorem le_maxAcc (g : ℕ → ℚ) : ∀ {n i : ℕ}, i < n → g i ≤ maxAcc g n := by
  intro n
  induction n with
  | zero => intro i h; exact absurd h (Nat.not_lt_zero i)
  | succ n ih =>
    intro i h
    rcases Nat.lt_succ_iff_lt_or_eq.mp h with h' | h'
    · exact le_trans (ih h') (le_max_left _ _)
    · subst h'; exact le_max_right _ _

theorem minAcc_cases (g : ℕ → ℚ) :
    ∀ n : ℕ, minAcc g n = hugeVal ∨ ∃ i, i < n ∧ minAcc g n = g i := by
  intro n
  induction n with
  | zero => exact Or.inl rfl
  | succ n ih =>
    rcases le_total (minAcc g n) (g n) with h | h
    · rw [show minAcc g (n + 1) = min (minAcc g n) (g n) from rfl, min_eq_left h]
      rcases ih with h' | ⟨i, hi, h'⟩
      · exact Or.inl h'
      · exact Or.inr ⟨i, Nat.lt_succ_of_lt hi, h'⟩
    · rw [show minAcc g (n + 1) = min (minAcc g n) (g n) from rfl, min_eq_right h]
      exact Or.inr ⟨n, Nat.lt_succ_self n, rfl⟩

theorem maxAcc_cases (g : ℕ → ℚ) :
    ∀ n : ℕ, maxAcc g n = -hugeVal ∨ ∃ i, i < n ∧ maxAcc g n = g i := by
  intro n
  induction n with
  | zero => exact Or.inl rfl
  | succ n ih =>
    rcases le_total (g n) (maxAcc g n) with h | h
    · rw [show maxAcc g (n + 1) = max (maxAcc g n) (g n) from rfl, max_eq_left h]
      rcases ih with h' | ⟨i, hi, h'⟩
      · exact Or.inl h'
      · exact Or.inr ⟨i, Nat.lt_succ_of_lt hi, h'⟩
    · rw [show maxAcc g (n + 1) = max (maxAcc g n) (g n) from rfl, max_eq_right h]
      exact Or.inr ⟨n, Nat.lt_succ_self n, rfl⟩

theorem convAcc_congr (g g' : ℕ → ℚ) :
    ∀ n : ℕ, (∀ i, i < n → g i = g' i) → convAcc g n = convAcc g' n := by
  intro n
  induction n with
  | zero => intro _; rfl
  | succ n ih =>
    intro h
    show convAcc g n + g n = convAcc g' n + g' n
    rw [ih fun i hi => h i (Nat.lt_succ_of_lt hi), h n (Nat.lt_succ_self n)]

theorem fClip_bounds (x lo hi : ℚ) (h : lo ≤ hi) :
    lo ≤ fClip x lo hi ∧ fClip x lo hi ≤ hi := by
  unfold fClip
  split_ifs with h1 h2
  · exact ⟨le_refl lo, h⟩
  · exact ⟨h, le_refl hi⟩
  · exact ⟨le_of_not_lt h1, le_of_not_lt h2⟩

theorem fClip_eq_self (x lo hi : ℚ) (h1 : lo ≤ x) (h2 : x ≤ hi) : fClip x lo hi = x := by
  unfold fClip
  rw [if_neg (not_lt.mpr h1), if_neg (not_lt.mpr h2)]

theorem tapSample_replicate (row : ℤ → ℚ) (filter : ScaleFilter) (pos_x W : ℤ) (i : ℕ) :
    tapSample row filter pos_x (W - 1) i
    = tapSampleExt (replicateExtendRow row W) filter pos_x i := by
  simp only [tapSample, tapIndex, tapSampleExt, replicateExtendRow, iClip]
  split_ifs with h1 h2
  · rfl
  · rfl
  · rfl

/-- C10: a `Conv444to422Generic` instance holds a fallback filter table exactly
when its overshoot-policy selector `useMinMax` is nonzero, and the fallback
table is always constructed from the fixed filtering method `DF_F0` with the
same phase as the primary filter, whatever the primary's method was. -/
theorem C10_fallback_table_invariant (method : ℤ) (clt : ChromaLocation) (useMinMax : ℤ) :
    ((mkConv444to422Generic method clt useMinMax).m_horFilterM.isSome ↔ useMinMax ≠ 0)
    ∧ (∀ k : ScaleFilterKey,
        (mkConv444to422Generic method clt useMinMax).m_horFilterM = some k →
        k.method = DF_F0
        ∧ k.phase = (mkConv444to422Generic method clt useMinMax).m_horFilter.phase) := by
  constructor
  · unfold mkConv444to422Generic
    by_cases h : useMinMax ≠ 0
    · simp [h]
    · simp [h]
  · intro k hk
    simp only [mkConv444to422Generic] at hk ⊢
    by_cases h : useMinMax ≠ 0
    · rw [if_pos h] at hk
      have hke : k = ⟨DF_F0, hPhaseOf clt⟩ := (Option.some_injective _ hk).symm
      subst hke
      exact ⟨rfl, rfl⟩
    · rw [if_neg h] at hk
      exact absurd hk (Option.some_ne_none k).symm

/-- Closed instance of `C10_fallback_table_invariant` at `method = 1`,
`CL_ZERO`, `useMinMax = 1`. -/
theorem C10_fallback_table_invariant_witness :
    (⟨DF_F0, hPhaseOf ChromaLocation.CL_ZERO⟩ : ScaleFilterKey).method = DF_F0
    ∧ (⟨DF_F0, hPhaseOf ChromaLocation.CL_ZERO⟩ : ScaleFilterKey).phase
      = (mkConv444to422Generic 1 ChromaLocation.CL_ZERO 1).m_horFilter.phase :=
  (C10_fallback_table_invariant 1 ChromaLocation.CL_ZERO 1).2
    ⟨DF_F0, hPhaseOf ChromaLocation.CL_ZERO⟩ (by rfl)

end HDR

namespace ST240

theorem m_invBeta_eq : m_invBeta = 0.0912 := by
  unfold m_invBeta inverse
  rw [if_pos (le_refl m_beta)]
  unfold m_beta
  norm_num

/-- C5: with `inverseGamma = 0.45`, `alpha = 0.1115`, `beta = 0.0228`,
`gamma = 1/inverseGamma` and `invBeta = inverse(beta)` fixed at construction
(which evaluates to `0.0912` since `inverse` takes its linear branch at
`beta`): `forward(v)` is `v / 4` for `v ≤ invBeta` and
`max((v + alpha)/(1 + alpha), 0) ^ gamma` otherwise, and `inverse(v)` is
`4 * v` for `v ≤ beta` and `(1 + alpha) * v ^ inverseGamma - alpha`
otherwise. -/
theorem C5_piecewise_formulas :
    (∀ v : ℝ, forward v =
      if v ≤ 0.0912 then v / 4
      else (max ((v + 0.1115) / (1 + 0.1115)) 0) ^ ((1 : ℝ) / 0.45))
    ∧ (∀ v : ℝ, inverse v =
      if v ≤ 0.0228 then 4 * v
      else (1 + 0.1115) * v ^ (0.45 : ℝ) - 0.1115) := by
  constructor
  · intro v
    unfold forward
    rw [m_invBeta_eq]
    unfold m_gamma m_inverseGamma m_alpha
    rfl
  · intro v
    unfold inverse
    unfold m_beta m_inverseGamma m_alpha
    rfl

/-- Closed instance of `C5_piecewise_formulas` at `v = 2`. -/
theorem C5_piecewise_formulas_witness :
    forward 2 =
      if (2 : ℝ) ≤ 0.0912 then (2 : ℝ) / 4
      else (max (((2 : ℝ) + 0.1115) / (1 + 0.1115)) 0) ^ ((1 : ℝ) / 0.45) :=
  C5_piecewise_formulas.1 2

end ST240

namespace HDR

theorem scaledValue_replicate (row : ℤ → ℚ) (filter : ScaleFilter) (pos_x W : ℤ) :
    scaledValue row filter pos_x (W - 1)
    = scaledValueExt (replicateExtendRow row W) filter pos_x := by
  unfold scaledValue scaledValueExt
  rw [convAcc_congr _ _ filter.m_numberOfTaps fun i _ => by rw [tapSample_replicate]]

/-- C8: for every row and output position, the float `filterHorizontal`
(whose per-tap source index is `iClip`ed into `[0, width]`, with `width`
passed as the last valid column `W - 1` by `filter`) computes exactly the
unclamped convolution of the row extended by replicating its first and last
column; in particular this holds for any tap window extending before column
`0` or past column `W - 1`, each out-of-range tap independently reading the
nearest valid column. -/
theorem C8_border_replication (row : ℤ → ℚ) (filter : ScaleFilter) (pos_x W : ℤ)
    (lo hi : ℚ) (hW : 1 ≤ W) :
    filterHorizontal row filter pos_x (W - 1) lo hi
    = filterHorizontalExt (replicateExtendRow row W) filter pos_x := by
  unfold filterHorizontal filterHorizontalExt
  rw [scaledValue_replicate]

/-- A one-tap identity filter (taps `[1]`, offset `0`, scale `1`) with the
clip flag set. -/
def filtClip : ScaleFilter :=
  { m_numberOfTaps := 1
    m_positionOffset := 0
    m_floatFilter := fun _ => 1
    m_floatOffset := 0
    m_floatScale := 1
    m_i32Filter := fun _ => 1
    m_i32Offset := 0
    m_i32Shift := 0
    m_clip := true }

/-- The same one-tap identity filter with the clip flag cleared. -/
def filtNoClip : ScaleFilter := { filtClip with m_clip := false }

/-- A constant input row of value `2`. -/
def rowTwo : ℤ → ℚ := fun _ => 2

/-- A subsampler state with policy `None` (`m_useMinMax = 0`). -/
def convNone : Conv := ⟨0, filtNoClip, filtNoClip⟩

/-- A subsampler state with policy selector `1` and one-tap tables. -/
def convMM : Conv := ⟨1, filtNoClip, filtNoClip⟩

/-- Closed instance of `C8_border_replication`: one-tap filter, `W = 1`,
`pos_x = 0`. -/
theorem C8_border_replication_witness :
    filterHorizontal rowTwo filtClip 0 (1 - 1) 0 1
    = filterHorizontalExt (replicateExtendRow rowTwo 1) filtClip 0 :=
  C8_border_replication rowTwo filtClip 0 1 0 1 (le_refl 1)

/-- C9: with overshoot policy `None`, the float path's output at row `j`,
column `i` depends only on the input samples that the primary filter's
(border-replicated) tap window around source position `2 * i` reads from row
`j`: any two input planes agreeing on those samples give the same output
there, whatever the two planes hold in all other rows and columns and
whatever the two previous output planes held. -/
theorem C9_policy_none_locality (conv : Conv) (out1 out2 inp1 inp2 : ℤ → ℚ)
    (width height : ℤ) (lo hi : ℚ) (j i : ℤ)
    (hpol : conv.m_useMinMax = 0)
    (hj0 : 0 ≤ j) (hj : j < height) (hi0 : 0 ≤ i) (hiw : i < width)
    (hagree : ∀ t, t < conv.m_horFilter.m_numberOfTaps →
      inp1 (j * (2 * width) + tapIndex conv.m_horFilter (2 * i) (2 * width - 1) t)
      = inp2 (j * (2 * width) + tapIndex conv.m_horFilter (2 * i) (2 * width - 1) t)) :
    filterPlaneF conv out1 inp1 width height lo hi (j * width + i)
    = filterPlaneF conv out2 inp2 width height lo hi (j * width + i) := by
  have hw : 0 < width := lt_of_le_of_lt hi0 hiw
  have hidx0 : 0 ≤ j * width + i := add_nonneg (mul_nonneg hj0 hw.le) hi0
  have hidxlt : j * width + i < width * height := by
    have h1 : (j + 1) * width ≤ height * width :=
      mul_le_mul_of_nonneg_right (by linarith) hw.le
    nlinarith
  have hdiv : (j * width + i) / width = j := by
    rw [add_comm, Int.add_mul_ediv_right _ _ (ne_of_gt hw), Int.ediv_eq_zero_of_lt hi0 hiw]
    ring
  have hmod : (j * width + i) % width = i := by
    have hcomm : j * width + i = i + width * j := by ring
    rw [hcomm, Int.add_mul_emod_self_left, Int.emod_eq_of_lt hi0 hiw]
  unfold filterPlaneF
  rw [if_pos ⟨hw, hidx0, hidxlt⟩, if_pos ⟨hw, hidx0, hidxlt⟩, hdiv, hmod]
  unfold filterSampleF
  rw [hpol]
  norm_num
  have hsv : scaledValue (rowOf inp1 (j * (2 * width))) conv.m_horFilter
      (2 * i) (2 * width - 1)
      = scaledValue (rowOf inp2 (j * (2 * width))) conv.m_horFilter
      (2 * i) (2 * width - 1) := by
    unfold scaledValue
    rw [convAcc_congr _ _ conv.m_horFilter.m_numberOfTaps
      fun t ht => by unfold tapSample rowOf; rw [hagree t ht]]
    rfl
  unfold filterHorizontal
  rw [hsv]

/-- Closed instance of `C9_policy_none_locality`: `1 × 1` plane, identical
constant inputs. -/
theorem C9_policy_none_locality_witness :
    filterPlaneF convNone rowTwo rowTwo 1 1 0 1 (0 * 1 + 0)
    = filterPlaneF convNone rowTwo rowTwo 1 1 0 1 (0 * 1 + 0) :=
  C9_policy_none_locality convNone rowTwo rowTwo rowTwo rowTwo 1 1 0 1 0 0
    (by rfl) (le_refl 0) (by norm_num) (le_refl 0) (by norm_num)
    (fun t ht => rfl)

/-- C2 fails on the policy-`None` path: with the clip flag set, a one-tap
identity filter on a constant row of `2` and caller range `[-10, 10]`, the
source's `filterHorizontal` clamps to the literal `[-0.5, 0.5]` and returns
`0.5`, not the claim's clamp of the scaled value to the caller-supplied
range (which would leave `2` unchanged). -/
theorem C2_counterexample :
    filterHorizontal rowTwo filtClip 0 0 (-10) 10
    ≠ fClip (scaledValue rowTwo filtClip 0 0) (-10) 10 := by
  have h1 : scaledValue rowTwo filtClip 0 0 = 2 := by
    norm_num [scaledValue, convAcc, tapSample, tapIndex, iClip, filtClip, rowTwo]
  have h2 : filterHorizontal rowTwo filtClip 0 0 (-10) 10 = 1 / 2 := by
    rw [filterHorizontal, if_pos (by rfl), h1]
    norm_num [fClip]
  rw [h1, h2]
  norm_num [fClip]

/-- C2 amended: after policy resolution, if the primary filter's clip flag is
set the three min/max policies clamp the resolved value to the
caller-supplied `[minValue, maxValue]`, but the `None` path ignores the
caller-supplied range entirely and clamps to the fixed `[-0.5, 0.5]`; with
the clip flag unset every path passes the resolved value through
unclamped. -/
theorem C2_final_clip_amended (conv : Conv) (inp : ℤ → ℚ) (filter : ScaleFilter)
    (pos_x width : ℤ) (lo hi : ℚ) :
    (filter.m_clip = true → lo ≤ hi →
      (lo ≤ filterHorizontalMinMax conv inp filter pos_x width lo hi
        ∧ filterHorizontalMinMax conv inp filter pos_x width lo hi ≤ hi)
      ∧ (lo ≤ filterHorizontalMinMax2 conv inp filter pos_x width lo hi
        ∧ filterHorizontalMinMax2 conv inp filter pos_x width lo hi ≤ hi)
      ∧ (lo ≤ filterHorizontalMinMax3 conv inp filter pos_x width lo hi
        ∧ filterHorizontalMinMax3 conv inp filter pos_x width lo hi ≤ hi)
      ∧ (∀ lo2 hi2 : ℚ, filterHorizontal inp filter pos_x width lo hi
          = filterHorizontal inp filter pos_x width lo2 hi2)
      ∧ (-(1/2) ≤ filterHorizontal inp filter pos_x width lo hi
        ∧ filterHorizontal inp filter pos_x width lo hi ≤ 1/2))
    ∧ (filter.m_clip = false →
      filterHorizontalMinMax conv inp filter pos_x width lo hi
        = resolveMinMax1 conv inp filter pos_x width
      ∧ filterHorizontalMinMax2 conv inp filter pos_x width lo hi
        = resolveMinMax2 conv inp filter pos_x width
      ∧ filterHorizontalMinMax3 conv inp filter pos_x width lo hi
        = resolveMinMax3 conv inp filter pos_x width
      ∧ filterHorizontal inp filter pos_x width lo hi
        = scaledValue inp filter pos_x width) := by
  constructor
  · intro hc hlh
    refine ⟨?_, ?_, ?_, ?_, ?_⟩
    · rw [filterHorizontalMinMax, if_pos hc]
      exact fClip_bounds _ _ _ hlh
    · rw [filterHorizontalMinMax2, if_pos hc]
      exact fClip_bounds _ _ _ hlh
    · rw [filterHorizontalMinMax3, if_pos hc]
      exact fClip_bounds _ _ _ hlh
    · intro lo2 hi2
      rfl
    · rw [filterHorizontal, if_pos hc]
      exact fClip_bounds _ _ _ (by norm_num)
  · intro hc
    refine ⟨?_, ?_, ?_, ?_⟩
    · rw [filterHorizontalMinMax, if_neg (by rw [hc]; exact Bool.false_ne_true)]
    · rw [filterHorizontalMinMax2, if_neg (by rw [hc]; exact Bool.false_ne_true)]
    · rw [filterHorizontalMinMax3, if_neg (by rw [hc]; exact Bool.false_ne_true)]
    · rw [filterHorizontal, if_neg (by rw [hc]; exact Bool.false_ne_true)]

/-- Closed instance of `C2_final_clip_amended`: the min/max-1 output lands in
the caller range `[-10, 10]` when the clip flag is set. -/
theorem C2_final_clip_amended_witness :
    (-10 : ℚ) ≤ filterHorizontalMinMax convMM rowTwo filtClip 0 0 (-10) 10
    ∧ filterHorizontalMinMax convMM rowTwo filtClip 0 0 (-10) 10 ≤ 10 :=
  ((C2_final_clip_amended convMM rowTwo filtClip 0 0 (-10) 10).1 (by rfl) (by norm_num)).1

theorem within_no_trigger (inp : ℤ → ℚ) (filterW : ScaleFilter) (pos_x width : ℤ) (P : ℚ)
    (h1 : ∃ t, t < filterW.m_numberOfTaps ∧ tapSample inp filterW pos_x width t ≤ P)
    (h2 : ∃ t, t < filterW.m_numberOfTaps ∧ P ≤ tapSample inp filterW pos_x width t) :
    ¬(windowMax inp filterW pos_x width < P ∨ P < windowMin inp filterW pos_x width) := by
  obtain ⟨t1, ht1, hle⟩ := h1
  obtain ⟨t2, ht2, hge⟩ := h2
  have hmin : windowMin inp filterW pos_x width ≤ P := le_trans (minAcc_le _ ht1) hle
  have hmax : P ≤ windowMax inp filterW pos_x width := le_trans hge (le_maxAcc _ ht2)
  simp only [not_or, not_lt]
  exact ⟨hmax, hmin⟩

theorem outside_trigger (inp : ℤ → ℚ) (filterW : ScaleFilter) (pos_x width : ℤ) (P : ℚ)
    (hn : 1 ≤ filterW.m_numberOfTaps)
    (hb : ∀ t, t < filterW.m_numberOfTaps →
      -hugeVal ≤ tapSample inp filterW pos_x width t
      ∧ tapSample inp filterW pos_x width t ≤ hugeVal)
    (h : (∀ t, t < filterW.m_numberOfTaps → tapSample inp filterW pos_x width t < P)
      ∨ (∀ t, t < filterW.m_numberOfTaps → P < tapSample inp filterW pos_x width t)) :
    windowMax inp filterW pos_x width < P ∨ P < windowMin inp filterW pos_x width := by
  rcases h with hall | hall
  · left
    rcases maxAcc_cases (tapSample inp filterW pos_x width) filterW.m_numberOfTaps with
      hmx | ⟨t, ht, hmx⟩
    · have hval : windowMax inp filterW pos_x width = -hugeVal := hmx
      have hb0 := (hb 0 hn).1
      have h0 := hall 0 hn
      linarith
    · have hval : windowMax inp filterW pos_x width = tapSample inp filterW pos_x width t := hmx
      rw [hval]
      exact hall t ht
  · right
    rcases minAcc_cases (tapSample inp filterW pos_x width) filterW.m_numberOfTaps with
      hmn | ⟨t, ht, hmn⟩
    · have hval : windowMin inp filterW pos_x width = hugeVal := hmn
      have hb0 := (hb 0 hn).2
      have h0 := hall 0 hn
      linarith
    · have hval : windowMin inp filterW pos_x width = tapSample inp filterW pos_x width t := hmn
      rw [hval]
      exact hall t ht

theorem windowMin_attained (inp : ℤ → ℚ) (filterW : ScaleFilter) (pos_x width : ℤ)
    (hn : 1 ≤ filterW.m_numberOfTaps)
    (hb : ∀ t, t < filterW.m_numberOfTaps →
      -hugeVal ≤ tapSample inp filterW pos_x width t
      ∧ tapSample inp filterW pos_x width t ≤ hugeVal) :
    ∃ t, t < filterW.m_numberOfTaps
      ∧ windowMin inp filterW pos_x width = tapSample inp filterW pos_x width t := by
  rcases minAcc_cases (tapSample inp filterW pos_x width) filterW.m_numberOfTaps with
    hmn | ⟨t, ht, hmn⟩
  · refine ⟨0, hn, ?_⟩
    have hle : windowMin inp filterW pos_x width ≤ tapSample inp filterW pos_x width 0 :=
      minAcc_le _ hn
    have hval : windowMin inp filterW pos_x width = hugeVal := hmn
    have hb0 := (hb 0 hn).2
    linarith
  · exact ⟨t, ht, hmn⟩

theorem windowMax_attained (inp : ℤ → ℚ) (filterW : ScaleFilter) (pos_x width : ℤ)
    (hn : 1 ≤ filterW.m_numberOfTaps)
    (hb : ∀ t, t < filterW.m_numberOfTaps →
      -hugeVal ≤ tapSample inp filterW pos_x width t
      ∧ tapSample inp filterW pos_x width t ≤ hugeVal) :
    ∃ t, t < filterW.m_numberOfTaps
      ∧ windowMax inp filterW pos_x width = tapSample inp filterW pos_x width t := by
  rcases maxAcc_cases (tapSample inp filterW pos_x width) filterW.m_numberOfTaps with
    hmx | ⟨t, ht, hmx⟩
  · refine ⟨0, hn, ?_⟩
    have hle : tapSample inp filterW pos_x width 0 ≤ windowMax inp filterW pos_x width :=
      le_maxAcc _ hn
    have hval : windowMax inp filterW pos_x width = -hugeVal := hmx
    have hb0 := (hb 0 hn).1
    linarith
  · exact ⟨t, ht, hmx⟩

/-- C4: with the final clip disabled (the claim describes the policy
resolution step) and nondegenerate, boundedly-valued tap windows:
`RecomputeIfOutside` returns the primary scaled result exactly whenever it
lies within the min/max of the primary filter's own tap samples, and the
fallback filter's scaled accumulation when it lies outside; `BlendIfOutside`
does the same with the min/max taken over the fallback filter's tap
samples. -/
theorem C4_recompute_blend (conv : Conv) (inp : ℤ → ℚ) (filter : ScaleFilter)
    (pos_x width : ℤ) (lo hi : ℚ)
    (hclip : filter.m_clip = false)
    (hn1 : 1 ≤ filter.m_numberOfTaps)
    (hn2 : 1 ≤ conv.m_horFilterM.m_numberOfTaps)
    (hb1 : ∀ t, t < filter.m_numberOfTaps →
      -hugeVal ≤ tapSample inp filter pos_x width t
      ∧ tapSample inp filter pos_x width t ≤ hugeVal)
    (hb2 : ∀ t, t < conv.m_horFilterM.m_numberOfTaps →
      -hugeVal ≤ tapSample inp conv.m_horFilterM pos_x width t
      ∧ tapSample inp conv.m_horFilterM pos_x width t ≤ hugeVal) :
    ((∃ t, t < filter.m_numberOfTaps
        ∧ tapSample inp filter pos_x width t ≤ scaledValue inp filter pos_x width) →
     (∃ t, t < filter.m_numberOfTaps
        ∧ scaledValue inp filter pos_x width ≤ tapSample inp filter pos_x width t) →
      filterHorizontalMinMax conv inp filter pos_x width lo hi
        = scaledValue inp filter pos_x width)
    ∧ (((∀ t, t < filter.m_numberOfTaps →
          tapSample inp filter pos_x width t < scaledValue inp filter pos_x width)
        ∨ (∀ t, t < filter.m_numberOfTaps →
          scaledValue inp filter pos_x width < tapSample inp filter pos_x width t)) →
      filterHorizontalMinMax conv inp filter pos_x width lo hi
        = scaledValue inp conv.m_horFilterM pos_x width)
    ∧ ((∃ t, t < conv.m_horFilterM.m_numberOfTaps
        ∧ tapSample inp conv.m_horFilterM pos_x width t ≤ scaledValue inp filter pos_x width) →
       (∃ t, t < conv.m_horFilterM.m_numberOfTaps
        ∧ scaledValue inp filter pos_x width ≤ tapSample inp conv.m_horFilterM pos_x width t) →
      filterHorizontalMinMax2 conv inp filter pos_x width lo hi
        = scaledValue inp filter pos_x width)
    ∧ (((∀ t, t < conv.m_horFilterM.m_numberOfTaps →
          tapSample inp conv.m_horFilterM pos_x width t < scaledValue inp filter pos_x width)
        ∨ (∀ t, t < conv.m_horFilterM.m_numberOfTaps →
          scaledValue inp filter pos_x width < tapSample inp conv.m_horFilterM pos_x width t)) →
      filterHorizontalMinMax2 conv inp filter pos_x width lo hi
        = scaledValue inp conv.m_horFilterM pos_x width) := by
  have hcneg : ¬(filter.m_clip = true) := by rw [hclip]; exact Bool.false_ne_true
  refine ⟨?_, ?_, ?_, ?_⟩
  · intro h1 h2
    rw [filterHorizontalMinMax, if_neg hcneg, resolveMinMax1,
      if_neg (within_no_trigger inp filter pos_x width _ h1 h2)]
  · intro h
    rw [filterHorizontalMinMax, if_neg hcneg, resolveMinMax1,
      if_pos (outside_trigger inp filter pos_x width _ hn1 hb1 h)]
  · intro h1 h2
    rw [filterHorizontalMinMax2, if_neg hcneg, resolveMinMax2,
      if_neg (within_no_trigger inp conv.m_horFilterM pos_x width _ h1 h2)]
  · intro h
    rw [filterHorizontalMinMax2, if_neg hcneg, resolveMinMax2,
      if_pos (outside_trigger inp conv.m_horFilterM pos_x width _ hn2 hb2 h)]

/-- Closed instance of `C4_recompute_blend`: one-tap identity filters on a
constant row keep the primary result. -/
theorem C4_recompute_blend_witness :
    filterHorizontalMinMax convMM rowTwo filtNoClip 0 0 0 1
    = scaledValue rowTwo filtNoClip 0 0 :=
  (C4_recompute_blend convMM rowTwo filtNoClip 0 0 0 1 (by rfl) (by decide) (by decide)
      (fun t ht => by norm_num [tapSample, rowTwo, hugeVal])
      (fun t ht => by norm_num [tapSample, rowTwo, hugeVal])).1
    ⟨0, by decide, by norm_num [tapSample, rowTwo, scaledValue, convAcc, tapIndex, iClip, filtNoClip, filtClip]⟩
    ⟨0, by decide, by norm_num [tapSample, rowTwo, scaledValue, convAcc, tapIndex, iClip, filtNoClip, filtClip]⟩

/-- C7: with the final clip disabled (the claim describes the resolved value)
and a nondegenerate, boundedly-valued fallback tap window, the
`ClampToLocalRange` output lies between the minimum and the maximum of the
fallback filter's tap samples over its window — stated as: some fallback tap
sample is `≤` the output and some fallback tap sample is `≥` the output. -/
theorem C7_clamp_to_local_range (conv : Conv) (inp : ℤ → ℚ) (filter : ScaleFilter)
    (pos_x width : ℤ) (lo hi : ℚ)
    (hclip : filter.m_clip = false)
    (hn : 1 ≤ conv.m_horFilterM.m_numberOfTaps)
    (hb : ∀ t, t < conv.m_horFilterM.m_numberOfTaps →
      -hugeVal ≤ tapSample inp conv.m_horFilterM pos_x width t
      ∧ tapSample inp conv.m_horFilterM pos_x width t ≤ hugeVal) :
    (∃ t, t < conv.m_horFilterM.m_numberOfTaps
      ∧ tapSample inp conv.m_horFilterM pos_x width t
        ≤ filterHorizontalMinMax3 conv inp filter pos_x width lo hi)
    ∧ (∃ t, t < conv.m_horFilterM.m_numberOfTaps
      ∧ filterHorizontalMinMax3 conv inp filter pos_x width lo hi
        ≤ tapSample inp conv.m_horFilterM pos_x width t) := by
  have hcneg : ¬(filter.m_clip = true) := by rw [hclip]; exact Bool.false_ne_true
  obtain ⟨tm, htm, hm⟩ := windowMin_attained inp conv.m_horFilterM pos_x width hn hb
  obtain ⟨tM, htM, hM⟩ := windowMax_attained inp conv.m_horFilterM pos_x width hn hb
  rw [filterHorizontalMinMax3, if_neg hcneg]
  simp only [resolveMinMax3]
  split_ifs with h1 h2 h3
  · exact ⟨⟨tm, htm, hm.ge⟩, ⟨0, hn, minAcc_le _ hn⟩⟩
  · exact ⟨⟨0, hn, le_maxAcc _ hn⟩, ⟨tM, htM, hM.le⟩⟩
  · exact ⟨⟨tm, htm, hm.ge⟩, ⟨0, hn, minAcc_le _ hn⟩⟩
  · refine ⟨⟨tm, htm, ?_⟩, ⟨tM, htM, ?_⟩⟩
    · have hms := not_lt.mp h3
      linarith [hm.ge]
    · have hMs := not_lt.mp h1
      linarith [hM.le]

/-- Closed instance of `C7_clamp_to_local_range` on the one-tap fixture. -/
theorem C7_clamp_to_local_range_witness :
    (∃ t, t < convMM.m_horFilterM.m_numberOfTaps
      ∧ tapSample rowTwo convMM.m_horFilterM 0 0 t
        ≤ filterHorizontalMinMax3 convMM rowTwo filtNoClip 0 0 0 1)
    ∧ (∃ t, t < convMM.m_horFilterM.m_numberOfTaps
      ∧ filterHorizontalMinMax3 convMM rowTwo filtNoClip 0 0 0 1
        ≤ tapSample rowTwo convMM.m_horFilterM 0 0 t) :=
  C7_clamp_to_local_range convMM rowTwo filtNoClip 0 0 0 1 (by rfl) (by decide)
    (fun t ht => by norm_num [tapSample, rowTwo, hugeVal])

/-- An 8-bit fixed-point `2 × 2` frame fixture. -/
def frame8 : Frame :=
  { m_isFloat := false
    m_bitDepth := 8
    m_compSize := fun _ => 4
    m_width := fun _ => 2
    m_height := fun _ => 2
    m_frameNo := 0
    m_isAvailable := true
    m_minPelValue := fun _ => 0
    m_midPelValue := fun _ => 128
    m_maxPelValue := fun _ => 255
    m_floatComp := fun _ _ => 0
    m_comp := fun _ _ => 0
    m_ui16Comp := fun _ _ => 0 }

/-- The same fixture with bit depth 16 instead of 8 (all else equal). -/
def frame16 : Frame := { frame8 with m_bitDepth := 16 }

/-- A float `2 × 2` output-frame fixture. -/
def frameFOut : Frame :=
  { m_isFloat := true
    m_bitDepth := 0
    m_compSize := fun _ => 4
    m_width := fun _ => 2
    m_height := fun _ => 2
    m_frameNo := 7
    m_isAvailable := true
    m_minPelValue := fun _ => -1
    m_midPelValue := fun _ => 0
    m_maxPelValue := fun _ => 1
    m_floatComp := fun _ _ => 0
    m_comp := fun _ _ => 0
    m_ui16Comp := fun _ _ => 0 }

/-- A float input frame with the same geometry but different metadata, and in
particular `m_isAvailable = false`. -/
def frameFInp : Frame :=
  { frameFOut with
    m_frameNo := 42
    m_isAvailable := false
    m_minPelValue := fun _ => -2
    m_midPelValue := fun _ => 3
    m_maxPelValue := fun _ => 5 }

/-- C1 fails as stated: on two fixed-point frames that differ only in bit
depth, `process` reaches `fprintf(stderr, ...); exit(EXIT_FAILURE)` — the
`some`-valued second component of the embedding is by construction the
process-abort path, so the mismatch is not surfaced to the caller as a
recoverable error value. -/
theorem C1_counterexample :
    (process convNone frame8 frame16).2 = some ProcExit.dataTypeMismatch := by
  rfl

/-- C1 amended: `process` detects a representation mismatch (different
float/fixed tags, or fixed-point with different bit depths) before touching
anything and aborts with the data-type diagnostic; when representations
match but the luma sample counts differ it aborts with the size diagnostic;
in both cases the output frame is returned entirely unchanged (every buffer
and every metadata field), but the surfacing is a process abort
(`exit(EXIT_FAILURE)`), not an error value returned to the caller. -/
theorem C1_mismatch_aborts_unchanged (conv : Conv) (out inp : Frame) :
    (out.m_isFloat ≠ inp.m_isFloat ∨ (inp.m_isFloat = false ∧ out.m_bitDepth ≠ inp.m_bitDepth) →
      process conv out inp = (out, some ProcExit.dataTypeMismatch))
    ∧ (¬(out.m_isFloat ≠ inp.m_isFloat ∨ (inp.m_isFloat = false ∧ out.m_bitDepth ≠ inp.m_bitDepth)) →
      out.m_compSize Y_COMP ≠ inp.m_compSize Y_COMP →
      process conv out inp = (out, some ProcExit.sizeMismatch)) := by
  constructor
  · intro h
    unfold process
    rw [if_pos h]
  · intro h1 h2
    unfold process
    rw [if_neg h1, if_pos h2]

/-- Closed instance of `C1_mismatch_aborts_unchanged` on the bit-depth
mismatch fixture. -/
theorem C1_mismatch_aborts_unchanged_witness :
    process convNone frame8 frame16 = (frame8, some ProcExit.dataTypeMismatch) :=
  (C1_mismatch_aborts_unchanged convNone frame8 frame16).1 (Or.inr ⟨rfl, by decide⟩)

/-- C3 fails as stated: on frames passing both precondition checks with
`inp.m_isAvailable = false`, `process` sets the output availability flag to
`TRUE` unconditionally instead of propagating the input's flag. -/
theorem C3_counterexample :
    (process convNone frameFOut frameFInp).1.m_isAvailable ≠ frameFInp.m_isAvailable := by
  decide

/-- C3 amended: when both precondition checks pass, `process` copies the
frame sequence number and the per-plane min/mid/max pel values of all three
components from the input, and sets the availability flag to `TRUE`
unconditionally (it does not copy the input's availability flag). -/
theorem C3_metadata_propagation (conv : Conv) (out inp : Frame)
    (h1 : ¬(out.m_isFloat ≠ inp.m_isFloat
      ∨ (inp.m_isFloat = false ∧ out.m_bitDepth ≠ inp.m_bitDepth)))
    (h2 : out.m_compSize Y_COMP = inp.m_compSize Y_COMP) :
    (process conv out inp).1.m_frameNo = inp.m_frameNo
    ∧ (process conv out inp).1.m_isAvailable = true
    ∧ ∀ c : Fin 3,
      (process conv out inp).1.m_minPelValue c = inp.m_minPelValue c
      ∧ (process conv out inp).1.m_midPelValue c = inp.m_midPelValue c
      ∧ (process conv out inp).1.m_maxPelValue c = inp.m_maxPelValue c := by
  unfold process
  rw [if_neg h1, if_neg (fun hne => hne h2)]
  dsimp only
  split_ifs with hf hb <;>
    simp [updateFloat, updateFixed8, updateFixed16]

/-- Closed instance of `C3_metadata_propagation` on the float fixtures. -/
theorem C3_metadata_propagation_witness :
    (process convNone frameFOut frameFInp).1.m_frameNo = frameFInp.m_frameNo :=
  (C3_metadata_propagation convNone frameFOut frameFInp (by decide) (by decide)).1

end HDR

namespace ST240

theorem m_gamma_eq : m_gamma = (20 : ℝ) / 9 := by
  unfold m_gamma m_inverseGamma
  norm_num

/-- C6 fails as stated even in exact real arithmetic: at `v = 0.09125`
(inside the interval between `invBeta = 0.0912` and the power-branch value
`(1 + alpha) * beta ^ 0.45 - alpha ≈ 0.09126` where `inverse` is continuous),
`forward` takes its power branch but lands at or below `beta`, so `inverse`
takes its linear branch and the round trip comes back `≤ 0.0912`, an error
of at least `5e-5 > 1e-6`. -/
theorem C6_counterexample :
    (1 / 1000000 : ℝ) < |inverse (forward 0.09125) - 0.09125| := by
  have ha : (0 : ℝ) < ((0.09125 : ℝ) + 0.1115) / (1 + 0.1115) := by norm_num
  have hfwd : forward 0.09125
      = (((0.09125 : ℝ) + 0.1115) / (1 + 0.1115)) ^ ((20 : ℝ) / 9) := by
    unfold forward
    rw [if_neg (by rw [m_invBeta_eq]; norm_num), m_gamma_eq]
    unfold m_alpha
    rw [max_eq_left ha.le]
  have hw_nonneg : 0 ≤ (((0.09125 : ℝ) + 0.1115) / (1 + 0.1115)) ^ ((20 : ℝ) / 9) :=
    Real.rpow_nonneg ha.le _
  have h9 : ((((0.09125 : ℝ) + 0.1115) / (1 + 0.1115)) ^ ((20 : ℝ) / 9)) ^ (9 : ℕ)
      = (((0.09125 : ℝ) + 0.1115) / (1 + 0.1115)) ^ (20 : ℕ) := by
    rw [← Real.rpow_natCast ((((0.09125 : ℝ) + 0.1115) / (1 + 0.1115)) ^ ((20 : ℝ) / 9)) 9,
      ← Real.rpow_mul ha.le, ← Real.rpow_natCast (((0.09125 : ℝ) + 0.1115) / (1 + 0.1115)) 20]
    norm_num
  have hpow : ((((0.09125 : ℝ) + 0.1115) / (1 + 0.1115)) ^ ((20 : ℝ) / 9)) ^ (9 : ℕ)
      ≤ (0.0228 : ℝ) ^ (9 : ℕ) := by
    rw [h9]
    norm_num
  have hle : (((0.09125 : ℝ) + 0.1115) / (1 + 0.1115)) ^ ((20 : ℝ) / 9) ≤ 0.0228 :=
    (pow_le_pow_iff_left₀ hw_nonneg (by norm_num) (by norm_num : (9 : ℕ) ≠ 0)).mp hpow
  have hinv : inverse (forward 0.09125)
      = 4 * ((((0.09125 : ℝ) + 0.1115) / (1 + 0.1115)) ^ ((20 : ℝ) / 9)) := by
    rw [hfwd]
    unfold inverse
    rw [if_pos (by unfold m_beta; exact hle)]
  rw [hinv, abs_of_neg (by linarith)]
  linarith

/-- C6 amended: the round trip `inverse (forward v)` is exact (and hence
within any tolerance) for every `v` in `[0, 1]` outside the interval
`(invBeta, invBeta + 1e-4)`; inside that interval, where `forward`'s two
branch breakpoints disagree, the round-trip error can exceed `1e-6`
(`C6_counterexample`). -/
theorem C6_roundtrip_amended (v : ℝ) (h0 : 0 ≤ v) (h1 : v ≤ 1)
    (hgap : v ≤ m_invBeta ∨ m_invBeta + 1 / 10000 ≤ v) :
    inverse (forward v) = v := by
  rw [m_invBeta_eq] at hgap
  rcases hgap with hlow | hhigh
  · have hfwd : forward v = v / 4 := by
      unfold forward
      rw [if_pos (by rw [m_invBeta_eq]; exact hlow)]
    rw [hfwd]
    unfold inverse
    rw [if_pos (by unfold m_beta; norm_num at hlow ⊢; linarith)]
    ring
  · have hv : (0.0913 : ℝ) ≤ v := by norm_num at hhigh ⊢; linarith
    have ha : (0 : ℝ) < (v + 0.1115) / (1 + 0.1115) := by
      have hvp : (0 : ℝ) < v + 0.1115 := by linarith
      positivity
    have hfwd : forward v = ((v + 0.1115) / (1 + 0.1115)) ^ ((20 : ℝ) / 9) := by
      unfold forward
      rw [if_neg (by rw [m_invBeta_eq]; norm_num; linarith), m_gamma_eq]
      unfold m_alpha
      rw [max_eq_left ha.le]
    have ha0 : (0 : ℝ) < ((0.0913 : ℝ) + 0.1115) / (1 + 0.1115) := by norm_num
    have haa0 : ((0.0913 : ℝ) + 0.1115) / (1 + 0.1115) ≤ (v + 0.1115) / (1 + 0.1115) := by
      apply div_le_div_of_nonneg_right ?_ (by norm_num)
      linarith
    have hwmono : (((0.0913 : ℝ) + 0.1115) / (1 + 0.1115)) ^ ((20 : ℝ) / 9)
        ≤ ((v + 0.1115) / (1 + 0.1115)) ^ ((20 : ℝ) / 9) :=
      Real.rpow_le_rpow ha0.le haa0 (by norm_num)
    have h9a : ((((0.0913 : ℝ) + 0.1115) / (1 + 0.1115)) ^ ((20 : ℝ) / 9)) ^ (9 : ℕ)
        = (((0.0913 : ℝ) + 0.1115) / (1 + 0.1115)) ^ (20 : ℕ) := by
      rw [← Real.rpow_natCast ((((0.0913 : ℝ) + 0.1115) / (1 + 0.1115)) ^ ((20 : ℝ) / 9)) 9,
        ← Real.rpow_mul ha0.le, ← Real.rpow_natCast (((0.0913 : ℝ) + 0.1115) / (1 + 0.1115)) 20]
      norm_num
    have hgt : (0.0228 : ℝ) < (((0.0913 : ℝ) + 0.1115) / (1 + 0.1115)) ^ ((20 : ℝ) / 9) := by
      by_contra hcon
      push_neg at hcon
      have hp : ((((0.0913 : ℝ) + 0.1115) / (1 + 0.1115)) ^ ((20 : ℝ) / 9)) ^ (9 : ℕ)
          ≤ (0.0228 : ℝ) ^ (9 : ℕ) :=
        pow_le_pow_left₀ (Real.rpow_nonneg ha0.le _) hcon 9
      rw [h9a] at hp
      have hnum : (0.0228 : ℝ) ^ (9 : ℕ)
          < (((0.0913 : ℝ) + 0.1115) / (1 + 0.1115)) ^ (20 : ℕ) := by
        norm_num
      linarith
    have hwgt : (0.0228 : ℝ) < ((v + 0.1115) / (1 + 0.1115)) ^ ((20 : ℝ) / 9) :=
      lt_of_lt_of_le hgt hwmono
    have hinv : inverse (forward v)
        = (1 + 0.1115) * (((v + 0.1115) / (1 + 0.1115)) ^ ((20 : ℝ) / 9)) ^ (0.45 : ℝ)
          - 0.1115 := by
      rw [hfwd]
      unfold inverse
      rw [if_neg (by unfold m_beta; exact not_le.mpr hwgt)]
      unfold m_alpha m_inverseGamma
      rfl
    have hexp : (20 : ℝ) / 9 * 0.45 = 1 := by norm_num
    have hrp : (((v + 0.1115) / (1 + 0.1115)) ^ ((20 : ℝ) / 9)) ^ (0.45 : ℝ)
        = (v + 0.1115) / (1 + 0.1115) := by
      rw [← Real.rpow_mul ha.le, hexp, Real.rpow_one]
    rw [hinv, hrp]
    field_simp

/-- Closed instance of `C6_roundtrip_amended` at `v = 0`. -/
theorem C6_roundtrip_amended_witness : inverse (forward 0) = 0 :=
  C6_roundtrip_amended 0 (le_refl 0) (by norm_num)
    (Or.inl (by rw [m_invBeta_eq]; norm_num))

end ST240
